import Mathlib

/-!
Verification of the grouped streaming statistics engine of the stats pipe
(lib/logstorage/pipe_stats.go).

The development shallowly embeds the data model and the operations of the
stats pipe: column blocks become lists of rows, byte strings become lists of
byte values, the per-shard group map becomes a record of three association
lists, and the budget / flush / writer logic is translated function by
function from the Go source.  Stats accumulators are modelled by a dictionary
record (one per stats function), matching the statsProcessor interface of the
source; concrete instances (count, values) are modelled from the spec since
the stats_*.go files are outside the embedded sources.
-/

set_option maxHeartbeats 1000000

namespace PipeStatsModel

/-- A byte string: values, keys and output cells are byte sequences in the
source; each byte is modelled as a Nat. -/
abbrev Bytes := List Nat

/-- A row of a column block, modelled as an association list from field names
to field values. -/
abbrev Row := List (Bytes × Bytes)

/-- blockResult: the unit of streaming, a columnar batch of rows.  The model
keeps the rows themselves; rowsLen is the number of rows. -/
structure Block where
  rows : List Row
deriving DecidableEq

/-- rowsLen of a blockResult. -/
def Block.rowsLen (br : Block) : Nat := br.rows.length

/-- statsProcessor dictionary for one stats function together with the
per-function data of pipeStatsFunc: the optional iff filter (modelled as a
row predicate, per the contract "given a block, produce a bitmap of matching
rows") and the result name.  The state type sigma is abstract, mirroring the
statsProcessor interface of the source. -/
structure StatsFuncM (σ : Type) where
  iff : Option (Row → Bool)
  resultName : String
  newState : σ
  updateAll : σ → Block → σ
  updateRow : σ → Block → Nat → σ
  merge : σ → σ → σ
  finalize : σ → Bytes

/-! ## Memory budget protocol (pipeStatsProcessor.writeBlock) -/

/-- stateSizeBudgetChunk = 1 << 20. -/
def stateSizeBudgetChunk : Int := 2 ^ 20

/-- Result of the budget-stealing loop at the top of
pipeStatsProcessor.writeBlock: ok is true when the loop exited normally and
the block is to be processed; cancelCalled records whether cancel() was
invoked; localB and globalB are the final values of the shard-local counter
and of the global stateSizeBudget atomic. -/
structure BudgetRes where
  ok : Bool
  cancelCalled : Bool
  localB : Int
  globalB : Int
deriving DecidableEq

/-- The loop "for shard.stateSizeBudget < 0 { ... }" of
pipeStatsProcessor.writeBlock: atomically subtract one chunk from the global
budget; if the result is negative, return (calling cancel() exactly when the
pre-subtraction value was non-negative); otherwise add the chunk to the
shard-local counter and repeat. -/
def budgetLoop (localB globalB : Int) : BudgetRes :=
  if localB < 0 then
    if globalB - stateSizeBudgetChunk < 0 then
      ⟨false, decide (0 ≤ globalB - stateSizeBudgetChunk + stateSizeBudgetChunk),
        localB, globalB - stateSizeBudgetChunk⟩
    else
      budgetLoop (localB + stateSizeBudgetChunk) (globalB - stateSizeBudgetChunk)
  else
    ⟨true, false, localB, globalB⟩
termination_by (-localB).toNat
decreasing_by
  simp only [stateSizeBudgetChunk] at *
  omega

/-- The observable state of pipeStatsProcessor relevant to one writeBlock
call: the shard-local budget counter, the global budget, whether cancel() has
been signalled, and the shard's aggregation state (left abstract: any type
M). -/
structure PspState (M : Type) where
  localB : Int
  globalB : Int
  cancelled : Bool
  shardState : M
deriving DecidableEq

/-- pipeStatsProcessor.writeBlock: returns immediately on a block with zero
rows; otherwise runs the budget-stealing loop and, when it exits normally,
processes the block via the shard write path (abstracted as the function f
on the shard state). -/
def pspWriteBlock {M : Type} (f : M → M) (br : Block) (st : PspState M) : PspState M :=
  if br.rowsLen = 0 then st
  else
    let r := budgetLoop st.localB st.globalB
    if r.ok then
      { st with localB := r.localB, globalB := r.globalB, shardState := f st.shardState }
    else
      { st with localB := r.localB, globalB := r.globalB,
                cancelled := st.cancelled || r.cancelCalled }

/-! ## Per-function iff filters and group updates (pipeStatsGroup) -/

/-- A bitmap over the rows of a block, one bit per row. -/
abbrev RowBitmap := List Bool

/-- bitmap.init followed by bitmap.setBits: a bitmap of the given length with
every bit set. -/
def bmSetBits (n : Nat) : RowBitmap := List.replicate n true

/-- filter.applyToBlockResult for an iff filter modelled as a row predicate:
clears every bit whose row does not match the filter. -/
def applyToBlockResult (flt : Row → Bool) (br : Block) (bm : RowBitmap) : RowBitmap :=
  List.zipWith (fun b r => b && flt r) bm br.rows

/-- pipeStatsProcessorShard.applyPerFunctionFilters: for each function with a
non-nil iff, initialize its bitmap to all-set over the rows of the block and
apply the filter to it; the bitmap slot of a function without iff is left
untouched. -/
def applyPerFunctionFilters {σ : Type} (funcs : List (StatsFuncM σ)) (br : Block)
    (bms : List RowBitmap) : List RowBitmap :=
  List.zipWith
    (fun f bm =>
      match f.iff with
      | none => bm
      | some flt => applyToBlockResult flt br (bmSetBits br.rowsLen))
    funcs bms

/-- blockResult.initFromFilterAllColumns: the projected block holding only
the rows of br whose bit is set in bm. -/
def initFromFilterAllColumns (br : Block) (bm : RowBitmap) : Block :=
  ⟨(br.rows.zip bm).filterMap (fun rb => if rb.2 then some rb.1 else none)⟩

/-- pipeStatsGroup.updateStatsForAllRows: each function with nil iff updates
over the raw block; each function with a non-nil iff updates over the block
projected through its own bitmap. -/
def groupUpdateStatsForAllRows {σ : Type} (funcs : List (StatsFuncM σ))
    (bms : List RowBitmap) (br : Block) (states : List σ) : List σ :=
  ((states.zip funcs).zip bms).map
    (fun sfb =>
      match sfb.1.2.iff with
      | none => sfb.1.2.updateAll sfb.1.1 br
      | some _ => sfb.1.2.updateAll sfb.1.1 (initFromFilterAllColumns br sfb.2))

/-- pipeStatsGroup.updateStatsForRow: each function updates for the row at
rowIdx only when its iff is nil or the corresponding bit of its bitmap is
set. -/
def groupUpdateStatsForRow {σ : Type} (funcs : List (StatsFuncM σ))
    (bms : List RowBitmap) (br : Block) (rowIdx : Nat) (states : List σ) : List σ :=
  ((states.zip funcs).zip bms).map
    (fun sfb =>
      match sfb.1.2.iff with
      | none => sfb.1.2.updateRow sfb.1.1 br rowIdx
      | some _ =>
        if sfb.2.getD rowIdx false then sfb.1.2.updateRow sfb.1.1 br rowIdx else sfb.1.1)

/-! ## Group map and key routing (pipeStatsGroupMap) -/

/-- Decimal digit test for a byte. -/
def isDigitByte (b : Nat) : Bool := 48 ≤ b && b ≤ 57

/-- Decimal value of a list of digit bytes. -/
def digitsValue (bs : Bytes) : Nat :=
  bs.foldl (fun acc b => 10 * acc + (b - 48)) 0

/-- Modelled from the spec: tryParseUint64 (defined outside the embedded
sources) succeeds exactly on the values that "parse as a non-negative 64-bit
unsigned integer": a non-empty run of decimal digits whose value fits in 64
bits. -/
def tryParseUint64 (bs : Bytes) : Option Nat :=
  if bs ≠ [] && bs.all isDigitByte && digitsValue bs < 2 ^ 64 then
    some (digitsValue bs)
  else none

/-- Modelled from the spec: tryParseInt64 (defined outside the embedded
sources) parses an optional leading minus sign followed by decimal digits,
with the value fitting in a signed 64-bit integer. -/
def tryParseInt64 (bs : Bytes) : Option Int :=
  if bs.head? = some 45 then
    match tryParseUint64 bs.tail with
    | some v => if v ≤ 2 ^ 63 then some (-(v : Int)) else none
    | none => none
  else
    match tryParseUint64 bs with
    | some v => if v < 2 ^ 63 then some (v : Int) else none
    | none => none

/-- The sub-map targeted (together with the key under which the group is
stored there) when looking up a group for a derived key value. -/
inductive GroupKeyTarget where
  | u64 (n : Nat)
  | neg (n : Int)
  | str (k : Bytes)
deriving DecidableEq

/-- The routing decision of pipeStatsGroupMap.getPipeStatsGroupGeneric: a key
parsing as uint64 goes to the u64 sub-map; otherwise a key starting with a
minus sign and parsing as int64 goes to the negative sub-map; every other key
goes to the string sub-map. -/
def routeGroupKeyGeneric (key : Bytes) : GroupKeyTarget :=
  match tryParseUint64 key with
  | some n => .u64 n
  | none =>
    if key.head? = some 45 then
      match tryParseInt64 key with
      | some n => .neg n
      | none => .str key
    else .str key

/-- The routing decision of pipeStatsGroupMap.getPipeStatsGroupInt64: a
non-negative value goes to the u64 sub-map, a negative one to the negative
sub-map. -/
def routeGroupKeyInt64 (n : Int) : GroupKeyTarget :=
  if 0 ≤ n then .u64 n.toNat else .neg n

/-- pipeStatsGroupMap: three parallel association lists from key to group
state (u64 keys, negative int64 keys, byte-string keys).  A group is the
list of per-function accumulator states, positionally aligned with funcs. -/
structure GroupMapM (σ : Type) where
  u64 : List (Nat × List σ)
  neg : List (Int × List σ)
  strs : List (Bytes × List σ)
deriving DecidableEq

/-- pipeStatsGroupMap.entriesCount. -/
def GroupMapM.entriesCount {σ : Type} (m : GroupMapM σ) : Nat :=
  m.u64.length + m.neg.length + m.strs.length

/-- The empty group map (pipeStatsGroupMap.init). -/
def GroupMapM.empty {σ : Type} : GroupMapM σ := ⟨[], [], []⟩

/-- pipeStatsGroupMap.newPipeStatsGroup: a fresh group holds one freshly
created statsProcessor per stats function. -/
def newPipeStatsGroup {σ : Type} (funcs : List (StatsFuncM σ)) : List σ :=
  funcs.map (fun f => f.newState)

/-- Lookup-or-create in one association list sub-map. -/
def assocGetOrCreate {κ σ : Type} [DecidableEq κ] (funcs : List (StatsFuncM σ))
    (l : List (κ × List σ)) (k : κ) : List (κ × List σ) :=
  match l.lookup k with
  | some _ => l
  | none => l ++ [(k, newPipeStatsGroup funcs)]

/-- pipeStatsGroupMap.getPipeStatsGroupUint64 (map effect): lookup-or-create
in the u64 sub-map. -/
def getPipeStatsGroupUint64 {σ : Type} (funcs : List (StatsFuncM σ))
    (m : GroupMapM σ) (n : Nat) : GroupMapM σ :=
  { m with u64 := assocGetOrCreate funcs m.u64 n }

/-- pipeStatsGroupMap.getPipeStatsGroupNegativeInt64 (map effect):
lookup-or-create in the negative sub-map. -/
def getPipeStatsGroupNegativeInt64 {σ : Type} (funcs : List (StatsFuncM σ))
    (m : GroupMapM σ) (n : Int) : GroupMapM σ :=
  { m with neg := assocGetOrCreate funcs m.neg n }

/-- pipeStatsGroupMap.getPipeStatsGroupString (map effect): lookup-or-create
in the string sub-map. -/
def getPipeStatsGroupString {σ : Type} (funcs : List (StatsFuncM σ))
    (m : GroupMapM σ) (k : Bytes) : GroupMapM σ :=
  { m with strs := assocGetOrCreate funcs m.strs k }

/-- pipeStatsGroupMap.getPipeStatsGroupGeneric (map effect): route the key
and perform the lookup-or-create in the routed sub-map only. -/
def getPipeStatsGroupGeneric {σ : Type} (funcs : List (StatsFuncM σ))
    (m : GroupMapM σ) (key : Bytes) : GroupMapM σ :=
  match routeGroupKeyGeneric key with
  | .u64 n => getPipeStatsGroupUint64 funcs m n
  | .neg n => getPipeStatsGroupNegativeInt64 funcs m n
  | .str k => getPipeStatsGroupString funcs m k

/-- pipeStatsGroupMap.getPipeStatsGroupInt64 (map effect). -/
def getPipeStatsGroupInt64 {σ : Type} (funcs : List (StatsFuncM σ))
    (m : GroupMapM σ) (n : Int) : GroupMapM σ :=
  if 0 ≤ n then getPipeStatsGroupUint64 funcs m n.toNat
  else getPipeStatsGroupNegativeInt64 funcs m n

/-! ## Key marshalling and decimal formatting -/

/-- marshalUint64String: the canonical decimal formatter for a non-negative
integer key, as bytes. -/
def natDecimalBytes (n : Nat) : Bytes :=
  (Nat.toDigits 10 n).map Char.toNat

/-- marshalInt64String: the canonical decimal formatter for an int64 key, as
bytes (a minus sign byte followed by the decimal digits when negative). -/
def intDecimalBytes (i : Int) : Bytes :=
  if i < 0 then 45 :: natDecimalBytes (-i).toNat else natDecimalBytes i.toNat

/-- Modelled from the spec: encoding.MarshalBytes (defined outside the
embedded sources) appends one length-prefixed byte string; a composite group
key is the concatenation of the length-prefixed by-field values in
declaration order. -/
def marshalBytesKey (dst : List Bytes) : Bytes :=
  dst.flatMap (fun v => v.length :: v)

/-- Modelled from the spec: the length-prefix decoder used by the stats
writer to re-split a composite key into the by-field values. -/
def unmarshalBytesKey (k : Bytes) : List Bytes :=
  match k with
  | [] => []
  | n :: rest => rest.take n :: unmarshalBytesKey (rest.drop n)
termination_by k.length
decreasing_by
  simp only [List.length_drop, List.length_cons]
  omega

/-! ## by-fields -/

/-- byStatsField, restricted to the data the flush path uses: the canonical
field name.  (Bucket configuration only affects value derivation during
ingestion.) -/
structure ByStatsField where
  name : String
deriving DecidableEq

/-! ## The stats writer (pipeStatsWriter) -/

/-- An output row: one byte-string value per output column. -/
abbrev OutRow := List Bytes

/-- An output block written to the next pipe: its rows. -/
abbrev OutBlock := List OutRow

/-- newPipeStatsWriter: the output columns, one per by-field (declaration
order, named with the by-field name) followed by one per stats function
(declaration order, named with resultName). -/
def pswColumnNames {σ : Type} (byFields : List ByStatsField)
    (funcs : List (StatsFuncM σ)) : List String :=
  byFields.map (fun bf => bf.name) ++ funcs.map (fun f => f.resultName)

/-- pipeStatsGroup finalization: one finalized value per stats function, in
declaration order. -/
def finalizeGroup {σ : Type} (funcs : List (StatsFuncM σ)) (g : List σ) : List Bytes :=
  (funcs.zip g).map (fun fg => fg.1.finalize fg.2)

/-- Mutable state of pipeStatsWriter while walking the groups of one map:
resultLen (accumulated value bytes since the last flush), the buffered rows,
and the blocks already emitted to the next pipe. -/
structure PswState where
  resultLen : Nat
  rows : List OutRow
  out : List OutBlock

/-- Total byte length of the values of one output row. -/
def rowBytesLen (vals : OutRow) : Nat := (vals.map List.length).sum

/-- pipeStatsWriter.writePipeStatsGroup: append the finalized values after
the key values, account their byte length, buffer the row, and emit the
buffered rows as a block once resultLen crosses 64000. -/
def writePipeStatsGroup {σ : Type} (funcs : List (StatsFuncM σ)) (st : PswState)
    (keyVals : List Bytes) (g : List σ) : PswState :=
  if 64000 ≤ st.resultLen + rowBytesLen (keyVals ++ finalizeGroup funcs g) then
    ⟨0, [], st.out ++ [st.rows ++ [keyVals ++ finalizeGroup funcs g]]⟩
  else
    ⟨st.resultLen + rowBytesLen (keyVals ++ finalizeGroup funcs g),
      st.rows ++ [keyVals ++ finalizeGroup funcs g], st.out⟩

/-- pipeStatsWriter.writeShardData, key side: the groups of one map in
iteration order, each with its reconstructed by-field key values.  For a
single by-field the u64, negative and string sub-maps are all walked and the
scalar is reconstructed with the canonical decimal formatter; otherwise only
the string sub-map is walked and the composite key is re-split with the
length-prefix decoder. -/
def orderedEntries {σ : Type} (byFields : List ByStatsField) (m : GroupMapM σ) :
    List (List Bytes × List σ) :=
  if byFields.length = 1 then
    m.u64.map (fun e => ([natDecimalBytes e.1], e.2))
      ++ m.neg.map (fun e => ([intDecimalBytes e.1], e.2))
      ++ m.strs.map (fun e => ([e.1], e.2))
  else
    m.strs.map (fun e => (unmarshalBytesKey e.1, e.2))

/-- One goroutine of pipeStatsProcessor.flush: writeShardData over one map
followed by the final pipeStatsWriter.flush, which always emits the buffered
rows (even when none remain) as a block to the next pipe.  The returned list
holds the blocks passed to ppNext.writeBlock, in order. -/
def writerRun {σ : Type} (byFields : List ByStatsField) (funcs : List (StatsFuncM σ))
    (m : GroupMapM σ) : List OutBlock :=
  let st := (orderedEntries byFields m).foldl
    (fun st e => writePipeStatsGroup funcs st e.1 e.2) ⟨0, [], []⟩
  st.out ++ [st.rows]

/-! ## Parallel merge (pipeStatsProcessor.mergeShardsParallel) -/

/-- pipeStatsGroup.mergeState: fold the accumulator states of src into dst
positionally across functions. -/
def mergeGroup {σ : Type} (funcs : List (StatsFuncM σ)) (dst src : List σ) : List σ :=
  (funcs.zip (dst.zip src)).map (fun fds => fds.1.merge fds.2.1 fds.2.2)

/-- One sub-map of pipeStatsGroupMap.mergeState: for a colliding key the
groups are merged; a non-colliding group is moved over. -/
def mergeAssoc {κ σ : Type} [DecidableEq κ] (funcs : List (StatsFuncM σ))
    (dst src : List (κ × List σ)) : List (κ × List σ) :=
  src.foldl
    (fun d e =>
      match d.lookup e.1 with
      | some g => d.map (fun de => if de.1 = e.1 then (de.1, mergeGroup funcs g e.2) else de)
      | none => d ++ [e])
    dst

/-- pipeStatsGroupMap.mergeState across the three sub-maps. -/
def mergeMapState {σ : Type} (funcs : List (StatsFuncM σ)) (dst src : GroupMapM σ) :
    GroupMapM σ :=
  { u64 := mergeAssoc funcs dst.u64 src.u64
    neg := mergeAssoc funcs dst.neg src.neg
    strs := mergeAssoc funcs dst.strs src.strs }

/-- The scatter step of mergeShardsParallel: the cpu-local map receiving the
entries of m whose key hash lands in bucket c (hash modulo cpusCount).  The
hash functions for u64 keys, negative keys and string keys are parameters of
the model. -/
def scatterBucket {σ : Type} (hu : Nat → Nat) (hn : Int → Nat) (hs : Bytes → Nat)
    (cpus : Nat) (m : GroupMapM σ) (c : Nat) : GroupMapM σ :=
  { u64 := m.u64.filter (fun e => hu e.1 % cpus = c)
    neg := m.neg.filter (fun e => hn e.1 % cpus = c)
    strs := m.strs.filter (fun e => hs e.1 % cpus = c) }

/-- The per-shard scatter: one cpu-local map per bucket. -/
def scatterAll {σ : Type} (hu : Nat → Nat) (hn : Int → Nat) (hs : Bytes → Nat)
    (cpus : Nat) (m : GroupMapM σ) : List (GroupMapM σ) :=
  (List.range cpus).map (scatterBucket hu hn hs cpus m)

/-- The general re-shard-and-merge path of mergeShardsParallel: scatter every
shard map into cpusCount buckets, fold the buckets of the remaining shards
into the buckets of shard 0 via mergeState, and keep the maps with at least
one entry. -/
def mergeShardsGeneral {σ : Type} (hu : Nat → Nat) (hn : Int → Nat) (hs : Bytes → Nat)
    (funcs : List (StatsFuncM σ)) (cpus : Nat) (shards : List (GroupMapM σ)) :
    List (GroupMapM σ) :=
  match shards.map (scatterAll hu hn hs cpus) with
  | [] => []
  | b0 :: rest =>
    (rest.foldl (fun acc b => List.zipWith (mergeMapState funcs) acc b) b0).filter
      (fun mm => mm.entriesCount ≠ 0)

/-- pipeStatsProcessor.mergeShardsParallel: with a single shard the hash
re-shard and the fan-in merge are skipped and the shard map is returned
directly (or no maps at all when it is empty); otherwise the general path
runs. -/
def mergeShardsParallel {σ : Type} (hu : Nat → Nat) (hn : Int → Nat) (hs : Bytes → Nat)
    (funcs : List (StatsFuncM σ)) (cpus : Nat) (shards : List (GroupMapM σ)) :
    List (GroupMapM σ) :=
  match shards with
  | [m] => if m.entriesCount > 0 then [m] else []
  | _ => mergeShardsGeneral hu hn hs funcs cpus shards

/-! ## flush (pipeStatsProcessor.flush) -/

/-- The out-of-memory error produced by flush: it names the formatted stats
pipe and the configured budget in megabytes. -/
def budgetErrMsg (psStr : String) (maxStateSize : Nat) : String :=
  "cannot calculate [" ++ psStr ++ "], since it requires more than "
    ++ toString (maxStateSize / 2 ^ 20) ++ "MB of memory"

/-- The map synthesized by flush when byFields is empty and no group exists:
a fresh shard map holding the single empty-key group. -/
def syntheticEmptyMap {σ : Type} (funcs : List (StatsFuncM σ)) : GroupMapM σ :=
  getPipeStatsGroupString funcs GroupMapM.empty []

/-- pipeStatsProcessor.flush: fail with the budget error when the global
budget is non-positive (emitting nothing); otherwise merge the shards, apply
the empty-group fallback and write the groups of each resulting map through
a stats writer.  The ok value lists every block written to the next pipe. -/
def pspFlush {σ : Type} (byFields : List ByStatsField) (funcs : List (StatsFuncM σ))
    (psStr : String) (maxStateSize : Nat) (globalB : Int)
    (hu : Nat → Nat) (hn : Int → Nat) (hs : Bytes → Nat) (cpus : Nat)
    (shards : List (GroupMapM σ)) : Except String (List OutBlock) :=
  if globalB ≤ 0 then .error (budgetErrMsg psStr maxStateSize)
  else
    let psms := mergeShardsParallel hu hn hs funcs cpus shards
    let psms := if byFields.length = 0 ∧ psms.length = 0 then [syntheticEmptyMap funcs] else psms
    .ok (psms.flatMap (writerRun byFields funcs))

/-! ## Concrete accumulators (modelled from the spec) -/

/-- Accumulator states for the concrete stats functions used to instantiate
the model: count (a counter of matching rows) and values (the ordered
multiset of all collected values). -/
inductive AccState where
  | count (n : Nat)
  | vals (vs : List Bytes)
deriving DecidableEq

/-- Value of a field in a row (the empty byte string when absent). -/
def rowFieldValue (row : Row) (field : Bytes) : Bytes :=
  ((row.find? (fun fv => fv.1 = field)).map (fun fv => fv.2)).getD []

/-- The comma-separated quoted items of a JSON array, as bytes. -/
def quoteJoin : List Bytes → Bytes
  | [] => []
  | [v] => 34 :: v ++ [34]
  | v :: rest => 34 :: v ++ [34] ++ 44 :: quoteJoin rest

/-- JSON-array rendering of a list of byte-string values (the finalize form
of the values stats function), as bytes. -/
def jsonArrayBytes (vs : List Bytes) : Bytes :=
  91 :: quoteJoin vs ++ [93]

/-- Modelled from the spec: the count stats function (stats_count.go is
outside the embedded sources) keeps a counter of matching rows and finalizes
to its decimal form. -/
def statsCountFunc (resultName : String) (iff : Option (Row → Bool)) : StatsFuncM AccState :=
  { iff := iff
    resultName := resultName
    newState := .count 0
    updateAll := fun s br =>
      match s with
      | .count n => .count (n + br.rowsLen)
      | s => s
    updateRow := fun s _ _ =>
      match s with
      | .count n => .count (n + 1)
      | s => s
    merge := fun s t =>
      match s, t with
      | .count a, .count b => .count (a + b)
      | s, _ => s
    finalize := fun s =>
      match s with
      | .count n => natDecimalBytes n
      | _ => [] }

/-- Modelled from the spec: the values stats function (stats_values.go is
outside the embedded sources) collects every value of its field in input
order and finalizes to a JSON array. -/
def statsValuesFunc (resultName : String) (field : Bytes) : StatsFuncM AccState :=
  { iff := none
    resultName := resultName
    newState := .vals []
    updateAll := fun s br =>
      match s with
      | .vals vs => .vals (vs ++ br.rows.map (fun r => rowFieldValue r field))
      | s => s
    updateRow := fun s br rowIdx =>
      match s with
      | .vals vs => .vals (vs ++ [rowFieldValue (br.rows.getD rowIdx []) field])
      | s => s
    merge := fun s t =>
      match s, t with
      | .vals a, .vals b => .vals (a ++ b)
      | s, _ => s
    finalize := fun s =>
      match s with
      | .vals vs => jsonArrayBytes vs
      | _ => [] }

/-! ## parsePipeStats: result-name resolution and checks -/

/-- One stats function entry as the parser sees it after parseStatsFunc and
the optional if filter: the string form of the function, the string form of
the if filter when present, and the explicit result name when the token
stream carries one ("as NAME" present; none models the code path where the
next token is one of the comma, pipe, closing-paren or end tokens). -/
structure StatsFuncItem where
  sfStr : String
  iffStr : Option String
  asName : Option String
deriving DecidableEq

/-- The result-name resolution of parsePipeStats: the explicit name when
present, else the string form of the function, concatenated with a space and
the string form of its if filter when one is present. -/
def resolveResultName (it : StatsFuncItem) : String :=
  match it.asName with
  | some name => name
  | none =>
    match it.iffStr with
    | none => it.sfStr
    | some s => it.sfStr ++ " " ++ s

/-- The function loop of parsePipeStats: resolve each result name, reject a
name used as a by-field, reject a name already used by a previous function,
and otherwise record the function with its resolved name.  On error no pipe
is constructed. -/
def parsePipeStatsFuncs (byFieldNames : List String) (seen : List String) :
    List StatsFuncItem → Except String (List (String × StatsFuncItem))
  | [] => .ok []
  | it :: rest =>
    let rn := resolveResultName it
    if rn ∈ byFieldNames then
      .error ("the " ++ rn ++ " is used as a by field, so it cannot be used as result name")
    else if rn ∈ seen then
      .error ("cannot use identical result name " ++ rn ++ " for two stats functions")
    else
      match parsePipeStatsFuncs byFieldNames (rn :: seen) rest with
      | .error e => .error e
      | .ok fs => .ok ((rn, it) :: fs)

/-! ## Concrete instances used in witnesses and counterexamples -/

/-- A single 64000-byte field value (64000 zero digits). -/
def bigVal : Bytes := List.replicate 64000 48

/-- A shard map holding one group under the single-character string key "a",
whose values accumulator has collected bigVal: finalizing this group crosses
the 64000-byte writer threshold on the first (and only) group. -/
def bigValuesMap : GroupMapM AccState :=
  ⟨[], [], [([97], [AccState.vals [bigVal]])]⟩

/-- A by-field list with the single field x. -/
def byFieldX : List ByStatsField := [⟨"x"⟩]

/-- The stats pipe "stats by (x) values(v) as a" instantiated in the model. -/
def valuesFuncA : StatsFuncM AccState := statsValuesFunc "a" [118]

/-- A small shard map with groups under all three sub-maps, used to witness
the single-shard merge fast path. -/
def smallMixedMap : GroupMapM AccState :=
  ⟨[(5, [AccState.count 2])], [(-3, [AccState.count 1])], [([97], [AccState.count 4])]⟩

/-! # Theorems -/

lemma budgetLoop_step (l g : Int) (hl : l < 0) (hg : 0 ≤ g - stateSizeBudgetChunk) :
    budgetLoop l g = budgetLoop (l + stateSizeBudgetChunk) (g - stateSizeBudgetChunk) := by
  rw [budgetLoop, if_pos hl, if_neg (not_lt.mpr hg)]

lemma budgetLoop_exhausted (l g : Int) (hl : l < 0) (hg : g - stateSizeBudgetChunk < 0) :
    budgetLoop l g = ⟨false, decide (0 ≤ g), l, g - stateSizeBudgetChunk⟩ := by
  rw [budgetLoop, if_pos hl, if_pos hg]
  have h3 : g - stateSizeBudgetChunk + stateSizeBudgetChunk = g := by ring
  rw [h3]

lemma budgetLoop_ok_nonneg (l g : Int) (h : (budgetLoop l g).ok = true) :
    0 ≤ (budgetLoop l g).localB := by
  induction l, g using budgetLoop.induct with
  | case1 l g hl hg =>
    rw [budgetLoop_exhausted l g hl hg] at h
    simp at h
  | case2 l g hl hg ih =>
    rw [budgetLoop_step l g hl (by omega)] at h ⊢
    exact ih h
  | case3 l g hl =>
    rw [budgetLoop, if_neg hl]
    exact not_lt.mp hl

/-- Claim C9: pipeStatsProcessor.writeBlock on a block with zero rows is a
complete no-op: it returns before the budget loop, leaving the shard state,
the local and global budget counters and the cancel signal unchanged. -/
theorem writeBlock_zero_rows_noop_c9 {M : Type} (f : M → M) (br : Block) (st : PspState M)
    (h : br.rowsLen = 0) : pspWriteBlock f br st = st := by
  simp [pspWriteBlock, h]

/-- Witness for C9 at a concrete state. -/
theorem writeBlock_zero_rows_noop_c9_witness :
    pspWriteBlock (M := Nat) (fun n => n + 1) ⟨[]⟩ ⟨-5, 3, false, 0⟩ = ⟨-5, 3, false, 0⟩ :=
  writeBlock_zero_rows_noop_c9 _ _ _ rfl

/-- Claim C2: on a block with at least one row, while the shard-local budget
counter is negative one chunk is subtracted from the global budget per
iteration; when the post-subtraction global value is negative the call
returns with the shard state unmodified and cancel() invoked exactly when
the pre-subtraction value was non-negative; otherwise the chunk is added to
the local counter and the loop repeats, and the block is processed only once
the local counter is non-negative. -/
theorem writeBlock_budget_protocol_c2 {M : Type} (f : M → M) (br : Block) (st : PspState M)
    (hrows : br.rowsLen ≠ 0) :
    (∀ l g : Int, l < 0 → 0 ≤ g - stateSizeBudgetChunk →
      budgetLoop l g = budgetLoop (l + stateSizeBudgetChunk) (g - stateSizeBudgetChunk)) ∧
    (∀ l g : Int, l < 0 → g - stateSizeBudgetChunk < 0 →
      budgetLoop l g = ⟨false, decide (0 ≤ g), l, g - stateSizeBudgetChunk⟩) ∧
    (∀ l g : Int, (budgetLoop l g).ok = true → 0 ≤ (budgetLoop l g).localB) ∧
    ((budgetLoop st.localB st.globalB).ok = false →
      pspWriteBlock f br st =
        { st with localB := (budgetLoop st.localB st.globalB).localB,
                  globalB := (budgetLoop st.localB st.globalB).globalB,
                  cancelled := st.cancelled || (budgetLoop st.localB st.globalB).cancelCalled }) ∧
    ((budgetLoop st.localB st.globalB).ok = true →
      pspWriteBlock f br st =
        { st with localB := (budgetLoop st.localB st.globalB).localB,
                  globalB := (budgetLoop st.localB st.globalB).globalB,
                  shardState := f st.shardState }) := by
  refine ⟨budgetLoop_step, budgetLoop_exhausted, budgetLoop_ok_nonneg, ?_, ?_⟩
  · intro hok
    simp [pspWriteBlock, hrows, hok]
  · intro hok
    simp [pspWriteBlock, hrows, hok]

/-- Witness for C2: one-row block, local counter -1, global budget one chunk
short: the loop subtracts the chunk, goes negative, and cancel() fires. -/
theorem writeBlock_budget_protocol_c2_witness :
    pspWriteBlock (M := Nat) (fun n => n + 1) ⟨[[]]⟩ ⟨-1, 5, false, 7⟩ =
      ⟨-1, 5 - stateSizeBudgetChunk, true, 7⟩ := by
  have hb : budgetLoop (-1 : Int) 5 = ⟨false, true, -1, 5 - stateSizeBudgetChunk⟩ := by
    rw [budgetLoop_exhausted (-1) 5 (by decide) (by decide)]
    decide
  have h := (writeBlock_budget_protocol_c2 (M := Nat) (fun n => n + 1) ⟨[[]]⟩
    ⟨-1, 5, false, 7⟩ (by decide)).2.2.2.1
  exact (h (by simp [hb])).trans (by simp [hb])

/-- Claim C3: when the global budget is non-positive at flush time, flush
fails with an error naming the formatted stats pipe and the configured
budget in megabytes, and no block is written downstream. -/
theorem flush_budget_error_c3 {σ : Type} (byFields : List ByStatsField)
    (funcs : List (StatsFuncM σ)) (psStr : String) (maxStateSize : Nat) (globalB : Int)
    (hu : Nat → Nat) (hn : Int → Nat) (hs : Bytes → Nat) (cpus : Nat)
    (shards : List (GroupMapM σ)) (h : globalB ≤ 0) :
    pspFlush byFields funcs psStr maxStateSize globalB hu hn hs cpus shards =
      .error (budgetErrMsg psStr maxStateSize) ∧
    (∃ pre post, budgetErrMsg psStr maxStateSize = pre ++ psStr ++ post) ∧
    (∃ pre post, budgetErrMsg psStr maxStateSize =
      pre ++ (toString (maxStateSize / 2 ^ 20) ++ "MB") ++ post) ∧
    (∀ blocks, pspFlush byFields funcs psStr maxStateSize globalB hu hn hs cpus shards ≠
      .ok blocks) := by
  refine ⟨by simp [pspFlush, h], ?_, ?_, ?_⟩
  · refine ⟨"cannot calculate [",
      "], since it requires more than " ++ toString (maxStateSize / 2 ^ 20) ++ "MB of memory", ?_⟩
    simp [budgetErrMsg, String.append_assoc]
  · refine ⟨"cannot calculate [" ++ psStr ++ "], since it requires more than ",
      " of memory", ?_⟩
    have hmb : ("MB" : String) ++ " of memory" = "MB of memory" := rfl
    simp only [budgetErrMsg, String.append_assoc, hmb]
  · intro blocks hcontra
    simp [pspFlush, h] at hcontra

/-- Witness for C3 at a concrete exhausted budget. -/
theorem flush_budget_error_c3_witness :
    pspFlush (σ := AccState) [] [statsCountFunc "n" none] "stats count() as n" (5 * 2 ^ 20)
      0 (fun n => n) (fun _ => 0) (fun _ => 0) 1 [GroupMapM.empty] =
      .error (budgetErrMsg "stats count() as n" (5 * 2 ^ 20)) :=
  (flush_budget_error_c3 _ _ _ _ _ _ _ _ _ _ (by decide)).1

lemma tryParseUint64_head45 (key : Bytes) (h : key.head? = some 45) :
    tryParseUint64 key = none := by
  cases key with
  | nil => simp at h
  | cons b rest =>
    simp only [List.head?_cons, Option.some.injEq] at h
    subst h
    simp [tryParseUint64, isDigitByte]

/-- Claim C6: key routing of the single-by-field fast path.  A derived key
value parsing as uint64 is stored only in the u64 sub-map; a value that does
not so parse, starts with a minus sign and parses as int64 is stored only in
the negative sub-map; every other value is stored in the string sub-map;
consequently a key parseable as i64 never reaches the string sub-map and a
key parseable as a non-negative integer never reaches the negative map (and
vice versa); getPipeStatsGroupInt64 routes by sign. -/
theorem group_key_routing_c6 {σ : Type} (funcs : List (StatsFuncM σ)) (m : GroupMapM σ)
    (key : Bytes) (n0 : Nat) (i0 : Int) :
    (tryParseUint64 key = some n0 → routeGroupKeyGeneric key = .u64 n0) ∧
    (tryParseUint64 key = none → key.head? = some 45 → tryParseInt64 key = some i0 →
      routeGroupKeyGeneric key = .neg i0) ∧
    (tryParseUint64 key = none → (key.head? = some 45 → tryParseInt64 key = none) →
      routeGroupKeyGeneric key = .str key) ∧
    (∀ i, tryParseInt64 key = some i → routeGroupKeyGeneric key ≠ .str key) ∧
    (tryParseUint64 key = some n0 → ∀ i, routeGroupKeyGeneric key ≠ .neg i) ∧
    (∀ i, routeGroupKeyGeneric key = .neg i → tryParseUint64 key = none) ∧
    (0 ≤ i0 → routeGroupKeyInt64 i0 = .u64 i0.toNat) ∧
    (i0 < 0 → routeGroupKeyInt64 i0 = .neg i0) ∧
    (∀ nn, routeGroupKeyGeneric key = .u64 nn →
      getPipeStatsGroupGeneric funcs m key = getPipeStatsGroupUint64 funcs m nn ∧
      (getPipeStatsGroupGeneric funcs m key).neg = m.neg ∧
      (getPipeStatsGroupGeneric funcs m key).strs = m.strs) ∧
    (∀ ii, routeGroupKeyGeneric key = .neg ii →
      getPipeStatsGroupGeneric funcs m key = getPipeStatsGroupNegativeInt64 funcs m ii ∧
      (getPipeStatsGroupGeneric funcs m key).u64 = m.u64 ∧
      (getPipeStatsGroupGeneric funcs m key).strs = m.strs) ∧
    (∀ kk, routeGroupKeyGeneric key = .str kk →
      getPipeStatsGroupGeneric funcs m key = getPipeStatsGroupString funcs m kk ∧
      (getPipeStatsGroupGeneric funcs m key).u64 = m.u64 ∧
      (getPipeStatsGroupGeneric funcs m key).neg = m.neg) := by
  refine ⟨?_, ?_, ?_, ?_, ?_, ?_, ?_, ?_, ?_, ?_, ?_⟩
  · intro h
    simp [routeGroupKeyGeneric, h]
  · intro hu hh hi
    simp [routeGroupKeyGeneric, hu, hh, hi]
  · intro hu hni
    simp only [routeGroupKeyGeneric, hu]
    by_cases hh : key.head? = some 45
    · simp [hh, hni hh]
    · simp [hh]
  · intro i hi hroute
    by_cases hh : key.head? = some 45
    · have hu := tryParseUint64_head45 key hh
      simp [routeGroupKeyGeneric, hu, hh, hi] at hroute
    · have hu : ∃ v, tryParseUint64 key = some v := by
        rw [tryParseInt64, if_neg hh] at hi
        rcases hv : tryParseUint64 key with _ | v
        · rw [hv] at hi; simp at hi
        · exact ⟨v, rfl⟩
      obtain ⟨v, hv⟩ := hu
      simp [routeGroupKeyGeneric, hv] at hroute
  · intro h i hroute
    simp [routeGroupKeyGeneric, h] at hroute
  · intro i hroute
    rcases hv : tryParseUint64 key with _ | v
    · rfl
    · simp [routeGroupKeyGeneric, hv] at hroute
  · intro h
    simp [routeGroupKeyInt64, h]
  · intro h
    simp [routeGroupKeyInt64, not_le.mpr h]
  · intro nn hroute
    simp [getPipeStatsGroupGeneric, hroute, getPipeStatsGroupUint64]
  · intro ii hroute
    simp [getPipeStatsGroupGeneric, hroute, getPipeStatsGroupNegativeInt64]
  · intro kk hroute
    simp [getPipeStatsGroupGeneric, hroute, getPipeStatsGroupString]

/-- Witness for C6 at concrete keys: the digit key "4" routes to the u64
sub-map and the negative value -7 routes to the negative sub-map. -/
theorem group_key_routing_c6_witness :
    routeGroupKeyGeneric [52] = .u64 4 ∧ routeGroupKeyInt64 (-7) = .neg (-7) :=
  ⟨(group_key_routing_c6 (σ := Unit) [] GroupMapM.empty [52] 4 (-7)).1 (by decide),
   (group_key_routing_c6 (σ := Unit) [] GroupMapM.empty [52] 4 (-7)).2.2.2.2.2.2.2.1
     (by decide)⟩

lemma parsePipeStatsFuncs_error_of_bad (byf : List String) (items : List StatsFuncItem) :
    ∀ seen : List String,
    (¬ (items.map resolveResultName).Nodup ∨
      (∃ r ∈ items.map resolveResultName, r ∈ seen) ∨
      (∃ r ∈ items.map resolveResultName, r ∈ byf)) →
    ∃ e, parsePipeStatsFuncs byf seen items = .error e := by
  induction items with
  | nil =>
    intro seen h
    simp at h
  | cons it rest ih =>
    intro seen h
    by_cases hbf : resolveResultName it ∈ byf
    · exact ⟨"the " ++ resolveResultName it
        ++ " is used as a by field, so it cannot be used as result name",
        by rw [parsePipeStatsFuncs, if_pos hbf]⟩
    by_cases hseen : resolveResultName it ∈ seen
    · exact ⟨"cannot use identical result name " ++ resolveResultName it
        ++ " for two stats functions",
        by rw [parsePipeStatsFuncs, if_neg hbf, if_pos hseen]⟩
    have hrest : ¬ (rest.map resolveResultName).Nodup ∨
        (∃ r ∈ rest.map resolveResultName, r ∈ resolveResultName it :: seen) ∨
        (∃ r ∈ rest.map resolveResultName, r ∈ byf) := by
      rcases h with h | h | h
      · rw [List.map_cons, List.nodup_cons] at h
        push_neg at h
        by_cases hdup : resolveResultName it ∈ rest.map resolveResultName
        · exact Or.inr (Or.inl ⟨resolveResultName it, hdup, List.mem_cons_self _ _⟩)
        · exact Or.inl (h hdup)
      · obtain ⟨r, hr, hrs⟩ := h
        rw [List.map_cons, List.mem_cons] at hr
        rcases hr with rfl | hr
        · exact absurd hrs hseen
        · exact Or.inr (Or.inl ⟨r, hr, List.mem_cons_of_mem _ hrs⟩)
      · obtain ⟨r, hr, hrs⟩ := h
        rw [List.map_cons, List.mem_cons] at hr
        rcases hr with rfl | hr
        · exact absurd hrs hbf
        · exact Or.inr (Or.inr ⟨r, hr, hrs⟩)
    obtain ⟨e, he⟩ := ih (resolveResultName it :: seen) hrest
    refine ⟨e, ?_⟩
    simp [parsePipeStatsFuncs, hbf, hseen, he]

/-- Claim C8: parsePipeStats rejects a result name already used by another
stats function and a result name equal to a by-field name (constructing no
pipe), and when the "as NAME" clause is omitted the result name defaults to
the string form of the function, concatenated with a space and the string
form of its if filter when one is present. -/
theorem parse_result_name_checks_c8 (byf : List String) (items : List StatsFuncItem)
    (it0 : StatsFuncItem) (s fstr : String) :
    (¬ (items.map resolveResultName).Nodup →
      ∃ e, parsePipeStatsFuncs byf [] items = .error e) ∧
    (it0 ∈ items → resolveResultName it0 ∈ byf →
      ∃ e, parsePipeStatsFuncs byf [] items = .error e) ∧
    (∀ e fs, parsePipeStatsFuncs byf [] items = .error e →
      parsePipeStatsFuncs byf [] items ≠ .ok fs) ∧
    (resolveResultName ⟨s, some fstr, none⟩ = s ++ " " ++ fstr) ∧
    (resolveResultName ⟨s, none, none⟩ = s) ∧
    (resolveResultName ⟨s, none, some fstr⟩ = fstr) := by
  refine ⟨?_, ?_, ?_, rfl, rfl, rfl⟩
  · intro h
    exact parsePipeStatsFuncs_error_of_bad byf items [] (Or.inl h)
  · intro hmem hbf
    exact parsePipeStatsFuncs_error_of_bad byf items []
      (Or.inr (Or.inr ⟨resolveResultName it0, List.mem_map_of_mem _ hmem, hbf⟩))
  · intro e fs he hok
    rw [he] at hok
    exact Except.noConfusion hok

/-- Witness for C8: two count() functions with no explicit names resolve to
the same result name and the parser errors out. -/
theorem parse_result_name_checks_c8_witness :
    ∃ e, parsePipeStatsFuncs [] [] [⟨"count()", none, none⟩, ⟨"count()", none, none⟩] =
      .error e :=
  (parse_result_name_checks_c8 [] [⟨"count()", none, none⟩, ⟨"count()", none, none⟩]
    ⟨"count()", none, none⟩ "" "").1 (by decide)

lemma applyToBlockResult_setBits (flt : Row → Bool) (br : Block) :
    applyToBlockResult flt br (bmSetBits br.rowsLen) = br.rows.map flt := by
  show List.zipWith _ (List.replicate br.rows.length true) br.rows = _
  induction br.rows with
  | nil => rfl
  | cons r l ih => simp [List.replicate_succ, ih]

lemma initFromFilterAllColumns_map (br : Block) (flt : Row → Bool) :
    initFromFilterAllColumns br (br.rows.map flt) = ⟨br.rows.filter flt⟩ := by
  unfold initFromFilterAllColumns
  congr 1
  induction br.rows with
  | nil => rfl
  | cons r l ih =>
    simp only [List.map_cons, List.zip_cons_cons, List.filterMap_cons, List.filter_cons]
    cases hfr : flt r <;> simp [ih]

/-- Claim C1: with the bitmaps produced by applyPerFunctionFilters, a stats
function with a non-nil iff has updateStatsForAllRows applied to the block
projected to exactly the filter-selected rows, and has updateStatsForRow
invoked for a row only when that row's bit is set (that is, when the row
matches the filter); a function with nil iff sees every row of the original
block. -/
theorem pipeStats_iff_projection_c1 {σ : Type} (funcs : List (StatsFuncM σ))
    (states : List σ) (bms : List RowBitmap) (br : Block) (i j : Nat)
    (f : StatsFuncM σ) (s : σ) (bm0 : RowBitmap) (row : Row)
    (hf : funcs[i]? = some f) (hst : states[i]? = some s) (hbm : bms[i]? = some bm0)
    (hrow : br.rows[j]? = some row) :
    (∀ flt, f.iff = some flt →
      (groupUpdateStatsForAllRows funcs (applyPerFunctionFilters funcs br bms) br
        states)[i]? = some (f.updateAll s ⟨br.rows.filter flt⟩)) ∧
    (f.iff = none →
      (groupUpdateStatsForAllRows funcs (applyPerFunctionFilters funcs br bms) br
        states)[i]? = some (f.updateAll s br)) ∧
    (∀ flt, f.iff = some flt →
      (groupUpdateStatsForRow funcs (applyPerFunctionFilters funcs br bms) br j
        states)[i]? = some (if flt row then f.updateRow s br j else s)) ∧
    (f.iff = none →
      (groupUpdateStatsForRow funcs (applyPerFunctionFilters funcs br bms) br j
        states)[i]? = some (f.updateRow s br j)) ∧
    (∀ flt, (initFromFilterAllColumns br (applyToBlockResult flt br (bmSetBits br.rowsLen))).rows
      = br.rows.filter flt) := by
  have hbms2 : (applyPerFunctionFilters funcs br bms)[i]? =
      some (match f.iff with
            | none => bm0
            | some flt => applyToBlockResult flt br (bmSetBits br.rowsLen)) := by
    rw [applyPerFunctionFilters, List.getElem?_zipWith', hf, hbm]
    rfl
  have hzz : ((states.zip funcs).zip (applyPerFunctionFilters funcs br bms))[i]? =
      some ((s, f), (match f.iff with
            | none => bm0
            | some flt => applyToBlockResult flt br (bmSetBits br.rowsLen))) := by
    rw [List.getElem?_zip_eq_some]
    exact ⟨by rw [List.getElem?_zip_eq_some]; exact ⟨hst, hf⟩, hbms2⟩
  refine ⟨?_, ?_, ?_, ?_, ?_⟩
  · intro flt hiff
    rw [groupUpdateStatsForAllRows, List.getElem?_map, hzz]
    simp [hiff, applyToBlockResult_setBits, initFromFilterAllColumns_map]
  · intro hiff
    rw [groupUpdateStatsForAllRows, List.getElem?_map, hzz]
    simp [hiff]
  · intro flt hiff
    rw [groupUpdateStatsForRow, List.getElem?_map, hzz]
    simp [hiff, applyToBlockResult_setBits, hrow]
  · intro hiff
    rw [groupUpdateStatsForRow, List.getElem?_map, hzz]
    simp [hiff]
  · intro flt
    rw [applyToBlockResult_setBits, initFromFilterAllColumns_map]

/-- Witness for C1: a count function whose iff selects empty rows, over a
two-row block with one empty row, counts exactly one row via the projected
block. -/
theorem pipeStats_iff_projection_c1_witness :
    (groupUpdateStatsForAllRows [statsCountFunc "n" (some (fun r => r.isEmpty))]
      (applyPerFunctionFilters [statsCountFunc "n" (some (fun r => r.isEmpty))]
        ⟨[[], [([1], [2])]]⟩ [[]])
      ⟨[[], [([1], [2])]]⟩ [AccState.count 0])[0]? = some (AccState.count 1) := by
  have h := (pipeStats_iff_projection_c1
    [statsCountFunc "n" (some (fun r => r.isEmpty))] [AccState.count 0] [[]]
    ⟨[[], [([1], [2])]]⟩ 0 0 (statsCountFunc "n" (some (fun r => r.isEmpty)))
    (AccState.count 0) [] [] rfl rfl rfl rfl).1 (fun r => r.isEmpty) rfl
  rw [h]
  rfl

lemma writerFold_out_nonempty {σ : Type} (funcs : List (StatsFuncM σ)) :
    ∀ (entries : List (List Bytes × List σ)) (st : PswState),
    (∀ b ∈ st.out, b ≠ []) →
    ∀ b ∈ (entries.foldl (fun st e => writePipeStatsGroup funcs st e.1 e.2) st).out, b ≠ [] := by
  intro entries
  induction entries with
  | nil => intro st h; exact h
  | cons e rest ih =>
    intro st h
    rw [List.foldl_cons]
    apply ih
    intro b hb
    simp only [writePipeStatsGroup] at hb
    by_cases hc : 64000 ≤ st.resultLen + rowBytesLen (e.1 ++ finalizeGroup funcs e.2)
    · rw [if_pos hc] at hb
      rcases List.mem_append.mp hb with hb | hb
      · exact h b hb
      · rw [List.mem_singleton] at hb
        subst hb
        simp
    · rw [if_neg hc] at hb
      exact h b hb

lemma writerFold_join {σ : Type} (funcs : List (StatsFuncM σ)) :
    ∀ (entries : List (List Bytes × List σ)) (st : PswState),
    ((entries.foldl (fun st e => writePipeStatsGroup funcs st e.1 e.2) st).out).flatten ++
      (entries.foldl (fun st e => writePipeStatsGroup funcs st e.1 e.2) st).rows =
    st.out.flatten ++ st.rows ++ entries.map (fun e => e.1 ++ finalizeGroup funcs e.2) := by
  intro entries
  induction entries with
  | nil => intro st; simp
  | cons e rest ih =>
    intro st
    rw [List.foldl_cons, ih]
    simp only [writePipeStatsGroup]
    by_cases hc : 64000 ≤ st.resultLen + rowBytesLen (e.1 ++ finalizeGroup funcs e.2)
    · rw [if_pos hc]
      simp [List.append_assoc]
    · rw [if_neg hc]
      simp [List.append_assoc]

lemma writerRun_flatten {σ : Type} (bf : List ByStatsField) (funcs : List (StatsFuncM σ))
    (m : GroupMapM σ) :
    (writerRun bf funcs m).flatten =
      (orderedEntries bf m).map (fun e => e.1 ++ finalizeGroup funcs e.2) := by
  simp only [writerRun, List.flatten_append]
  have h := writerFold_join funcs (orderedEntries bf m) ⟨0, [], []⟩
  simpa using h

lemma unmarshal_marshal (vals : List Bytes) :
    unmarshalBytesKey (marshalBytesKey vals) = vals := by
  induction vals with
  | nil => rw [marshalBytesKey, List.flatMap_nil, unmarshalBytesKey]
  | cons v rest ih =>
    show unmarshalBytesKey ((v.length :: v) ++ marshalBytesKey rest) = v :: rest
    simp only [List.cons_append, unmarshalBytesKey, List.take_left, List.drop_left, ih]

lemma orderedEntries_key_length {σ : Type} (byFields : List ByStatsField) (m : GroupMapM σ)
    (hkey : byFields.length ≠ 1 → ∀ e ∈ m.strs, ∃ vals : List Bytes,
      vals.length = byFields.length ∧ e.1 = marshalBytesKey vals) :
    ∀ e ∈ orderedEntries byFields m, (e.1 : List Bytes).length = byFields.length := by
  intro e he
  rw [orderedEntries] at he
  by_cases h1 : byFields.length = 1
  · rw [if_pos h1] at he
    rw [h1]
    rcases List.mem_append.mp he with he | he
    · rcases List.mem_append.mp he with he | he
      · obtain ⟨x, _, rfl⟩ := List.mem_map.mp he
        rfl
      · obtain ⟨x, _, rfl⟩ := List.mem_map.mp he
        rfl
    · obtain ⟨x, _, rfl⟩ := List.mem_map.mp he
      rfl
  · rw [if_neg h1] at he
    obtain ⟨x, hx, rfl⟩ := List.mem_map.mp he
    obtain ⟨vals, hlen, hx1⟩ := hkey h1 x hx
    simp only [hx1, unmarshal_marshal, hlen]

/-- Claim C5: the output columns of the stats writer are the by-fields in
declaration order (named with the by-field name) followed by the stats
functions in declaration order (named with resultName), and every emitted
row consists of the group's by-field key values followed by the finalized
values of its accumulators in the same order. -/
theorem output_column_order_c5 {σ : Type} (byFields : List ByStatsField)
    (funcs : List (StatsFuncM σ)) (m : GroupMapM σ)
    (hgu : ∀ e ∈ m.u64, (e.2 : List σ).length = funcs.length)
    (hgn : ∀ e ∈ m.neg, (e.2 : List σ).length = funcs.length)
    (hgs : ∀ e ∈ m.strs, (e.2 : List σ).length = funcs.length)
    (hkey : byFields.length ≠ 1 → ∀ e ∈ m.strs, ∃ vals : List Bytes,
      vals.length = byFields.length ∧ e.1 = marshalBytesKey vals) :
    pswColumnNames byFields funcs =
      byFields.map (fun bf => bf.name) ++ funcs.map (fun f => f.resultName) ∧
    (∀ block ∈ writerRun byFields funcs m, ∀ row ∈ block,
      ∃ e ∈ orderedEntries byFields m, row = e.1 ++ finalizeGroup funcs e.2) ∧
    (∀ block ∈ writerRun byFields funcs m, ∀ row ∈ block,
      row.length = byFields.length + funcs.length) := by
  have hrowmem : ∀ block ∈ writerRun byFields funcs m, ∀ row ∈ block,
      ∃ e ∈ orderedEntries byFields m, row = e.1 ++ finalizeGroup funcs e.2 := by
    intro block hblock row hrow
    have hj : row ∈ (writerRun byFields funcs m).flatten :=
      List.mem_flatten.mpr ⟨block, hblock, hrow⟩
    rw [writerRun_flatten] at hj
    obtain ⟨e, he, hre⟩ := List.mem_map.mp hj
    exact ⟨e, he, hre.symm⟩
  have hglen : ∀ e ∈ orderedEntries byFields m, (e.2 : List σ).length = funcs.length := by
    intro e he
    rw [orderedEntries] at he
    by_cases h1 : byFields.length = 1
    · rw [if_pos h1] at he
      rcases List.mem_append.mp he with he | he
      · rcases List.mem_append.mp he with he | he
        · obtain ⟨x, hx, rfl⟩ := List.mem_map.mp he
          exact hgu x hx
        · obtain ⟨x, hx, rfl⟩ := List.mem_map.mp he
          exact hgn x hx
      · obtain ⟨x, hx, rfl⟩ := List.mem_map.mp he
        exact hgs x hx
    · rw [if_neg h1] at he
      obtain ⟨x, hx, rfl⟩ := List.mem_map.mp he
      exact hgs x hx
  refine ⟨rfl, hrowmem, ?_⟩
  intro block hblock row hrow
  obtain ⟨e, he, rfl⟩ := hrowmem block hblock row hrow
  rw [List.length_append]
  rw [orderedEntries_key_length byFields m hkey e he]
  congr 1
  rw [finalizeGroup, List.length_map, List.length_zip, hglen e he, Nat.min_self]

/-- Witness for C5: over the mixed three-key map with a single by-field and
a single count function, one concrete emitted row has one key value followed
by one finalized value. -/
theorem output_column_order_c5_witness :
    ([[53], [50]] : OutRow).length = byFieldX.length + [statsCountFunc "n" none].length := by
  have h := (output_column_order_c5 byFieldX [statsCountFunc "n" none] smallMixedMap
    (by decide) (by decide) (by decide) (fun h1 => absurd rfl h1)).2.2
  exact h [[[53], [50]], [[45, 51], [49]], [[97], [52]]] (by decide) [[53], [50]] (by decide)

lemma finalizeGroup_fresh {σ : Type} (funcs : List (StatsFuncM σ)) :
    finalizeGroup funcs (newPipeStatsGroup funcs) =
      funcs.map (fun f => f.finalize f.newState) := by
  induction funcs with
  | nil => rfl
  | cons f fs ih =>
    simp only [finalizeGroup, newPipeStatsGroup, List.map_cons, List.zip_cons_cons] at *
    rw [ih]

lemma scatterBucket_empty {σ : Type} (hu : Nat → Nat) (hn : Int → Nat) (hs : Bytes → Nat)
    (cpus c : Nat) :
    scatterBucket hu hn hs cpus (GroupMapM.empty (σ := σ)) c = GroupMapM.empty := rfl

lemma scatterAll_empty {σ : Type} (hu : Nat → Nat) (hn : Int → Nat) (hs : Bytes → Nat)
    (cpus : Nat) :
    scatterAll hu hn hs cpus (GroupMapM.empty (σ := σ)) =
      (List.range cpus).map (fun _ => GroupMapM.empty) := rfl

lemma zipWith_merge_empties {σ : Type} (funcs : List (StatsFuncM σ)) (l : List Nat) :
    List.zipWith (mergeMapState funcs) (l.map (fun _ => (GroupMapM.empty : GroupMapM σ)))
      (l.map (fun _ => GroupMapM.empty)) = l.map (fun _ => GroupMapM.empty) := by
  induction l with
  | nil => rfl
  | cons a l ih => simp only [List.map_cons, List.zipWith_cons_cons, ih]; rfl

lemma foldZipMerge_empties {σ : Type} (funcs : List (StatsFuncM σ)) (cpus : Nat) :
    ∀ (bs : List (List (GroupMapM σ))),
    (∀ b ∈ bs, b = (List.range cpus).map (fun _ => (GroupMapM.empty : GroupMapM σ))) →
    bs.foldl (fun acc b => List.zipWith (mergeMapState funcs) acc b)
      ((List.range cpus).map (fun _ => GroupMapM.empty)) =
    (List.range cpus).map (fun _ => GroupMapM.empty) := by
  intro bs
  induction bs with
  | nil => intro _; rfl
  | cons b bs ih =>
    intro hb
    rw [List.foldl_cons, hb b (List.mem_cons_self _ _), zipWith_merge_empties]
    exact ih (fun x hx => hb x (List.mem_cons_of_mem _ hx))

lemma mergeShardsGeneral_allEmpty {σ : Type} (hu : Nat → Nat) (hn : Int → Nat)
    (hs : Bytes → Nat) (funcs : List (StatsFuncM σ)) (cpus : Nat) :
    ∀ (shards : List (GroupMapM σ)), (∀ m ∈ shards, m = GroupMapM.empty) →
    mergeShardsGeneral hu hn hs funcs cpus shards = [] := by
  intro shards h
  cases shards with
  | nil => rfl
  | cons m ms =>
    rw [mergeShardsGeneral]
    simp only [List.map_cons]
    rw [h m (List.mem_cons_self _ _), scatterAll_empty]
    rw [foldZipMerge_empties funcs cpus (ms.map (scatterAll hu hn hs cpus))
      (by
        intro b hb
        obtain ⟨x, hx, rfl⟩ := List.mem_map.mp hb
        rw [h x (List.mem_cons_of_mem _ hx), scatterAll_empty])]
    rw [List.filter_eq_nil_iff.mpr]
    intro a ha
    obtain ⟨x, _, rfl⟩ := List.mem_map.mp ha
    simp [GroupMapM.entriesCount, GroupMapM.empty]

lemma mergeShardsParallel_allEmpty {σ : Type} (hu : Nat → Nat) (hn : Int → Nat)
    (hs : Bytes → Nat) (funcs : List (StatsFuncM σ)) (cpus : Nat)
    (shards : List (GroupMapM σ)) (h : ∀ m ∈ shards, m = GroupMapM.empty) :
    mergeShardsParallel hu hn hs funcs cpus shards = [] := by
  match shards with
  | [] => rfl
  | [m] =>
    have hm := h m (List.mem_singleton.mpr rfl)
    subst hm
    rfl
  | m1 :: m2 :: rest =>
    show mergeShardsGeneral hu hn hs funcs cpus (m1 :: m2 :: rest) = []
    exact mergeShardsGeneral_allEmpty hu hn hs funcs cpus _ h

/-- Claim C4: with an empty byFields list and no groups after the merge,
flush synthesizes exactly one empty-key group so that exactly one output row
is emitted, holding each function's finalize result on its fresh state (for
count this is the decimal digit 0); with a non-empty byFields list and no
groups, zero output rows are emitted. -/
theorem flush_empty_group_fallback_c4 {σ : Type} (funcs : List (StatsFuncM σ))
    (byFields : List ByStatsField) (psStr : String) (maxStateSize : Nat) (globalB : Int)
    (hu : Nat → Nat) (hn : Int → Nat) (hs : Bytes → Nat) (cpus : Nat)
    (shards : List (GroupMapM σ)) (hpos : 0 < globalB)
    (hempty : ∀ m ∈ shards, m = GroupMapM.empty) :
    (∃ blocks, pspFlush [] funcs psStr maxStateSize globalB hu hn hs cpus shards = .ok blocks ∧
      blocks.flatten = [funcs.map (fun f => f.finalize f.newState)]) ∧
    (byFields ≠ [] → ∃ blocks,
      pspFlush byFields funcs psStr maxStateSize globalB hu hn hs cpus shards = .ok blocks ∧
      blocks.flatten = []) ∧
    (statsCountFunc "n" none).finalize (statsCountFunc "n" none).newState = [48] := by
  have hng : ¬ (globalB ≤ 0) := not_le.mpr hpos
  have hmerge := mergeShardsParallel_allEmpty hu hn hs funcs cpus shards hempty
  refine ⟨?_, ?_, rfl⟩
  · refine ⟨writerRun [] funcs (syntheticEmptyMap funcs), ?_, ?_⟩
    · rw [pspFlush, if_neg hng]
      simp only [hmerge]
      rw [if_pos (by simp)]
      simp
    · rw [writerRun_flatten]
      have hent : orderedEntries [] (syntheticEmptyMap funcs) =
          [([], newPipeStatsGroup funcs)] := by
        rw [orderedEntries, if_neg (by simp)]
        simp [syntheticEmptyMap, getPipeStatsGroupString, assocGetOrCreate, GroupMapM.empty,
          unmarshalBytesKey]
      rw [hent]
      simp only [List.map_cons, List.map_nil, List.nil_append]
      rw [finalizeGroup_fresh]
  · intro hbf
    refine ⟨[], ?_, rfl⟩
    rw [pspFlush, if_neg hng]
    simp only [hmerge]
    rw [if_neg (by simp [hbf])]
    simp

/-- Witness for C4: flushing one empty shard with a single count function
and no by-fields yields exactly the single row with the value 0. -/
theorem flush_empty_group_fallback_c4_witness :
    ∃ blocks, pspFlush [] [statsCountFunc "n" none] "stats count() as n" 100 1
      (fun _ => 0) (fun _ => 0) (fun _ => 0) 1 [GroupMapM.empty] = .ok blocks ∧
      blocks.flatten = [[[48]]] := by
  have h := (flush_empty_group_fallback_c4 [statsCountFunc "n" none] byFieldX
    "stats count() as n" 100 1 (fun _ => 0) (fun _ => 0) (fun _ => 0) 1 [GroupMapM.empty]
    (by decide) (by intro m hm; rw [List.mem_singleton] at hm; exact hm)).1
  obtain ⟨blocks, hb, hf⟩ := h
  exact ⟨blocks, hb, by rw [hf]; rfl⟩

lemma bigVal_length : bigVal.length = 64000 := by
  rw [bigVal, List.length_replicate]

lemma quoteJoin_singleton (v : Bytes) : quoteJoin [v] = 34 :: v ++ [34] := rfl

lemma jsonArrayBytes_bigVal_length : (jsonArrayBytes [bigVal]).length = 64004 := by
  rw [jsonArrayBytes, quoteJoin_singleton, List.length_append, List.length_cons,
    List.length_append, List.length_cons, bigVal_length]
  rfl

lemma writePipeStatsGroup_bigStep :
    writePipeStatsGroup [valuesFuncA] ⟨0, [], []⟩ [[97]] [AccState.vals [bigVal]] =
      ⟨0, [], [[[[97], jsonArrayBytes [bigVal]]]]⟩ := by
  have hfin : finalizeGroup [valuesFuncA] [AccState.vals [bigVal]] =
      [jsonArrayBytes [bigVal]] := rfl
  have hlen : rowBytesLen ([[97]] ++ [jsonArrayBytes [bigVal]]) = 64005 := by
    rw [rowBytesLen, List.cons_append, List.nil_append, List.map_cons, List.map_cons,
      List.map_nil, jsonArrayBytes_bigVal_length]
    rfl
  rw [writePipeStatsGroup, hfin, hlen]
  rw [if_pos (by norm_num)]
  rfl

lemma writerRun_bigValuesMap :
    writerRun byFieldX [valuesFuncA] bigValuesMap =
      [[[[97], jsonArrayBytes [bigVal]]], []] := by
  have hent : orderedEntries byFieldX bigValuesMap =
      [([[97]], [AccState.vals [bigVal]])] := by
    rw [orderedEntries, if_pos (by rfl)]
    rfl
  simp only [writerRun, hent, List.foldl_cons, List.foldl_nil, writePipeStatsGroup_bigStep]
  rfl

/-- Counterexample to C7: flushing a single-group shard whose only group
finalizes to more than 64000 bytes makes the writer emit the group in a
size-triggered block and then write a second, zero-row block from its final
trailing flush — with a non-empty byFields list, so it is not the synthetic
empty-match row. -/
theorem writer_zero_row_block_c7_counterexample :
    ∃ blocks, pspFlush byFieldX [valuesFuncA] "stats by (x) values(v) as a" 100 1
      (fun _ => 0) (fun _ => 0) (fun _ => 0) 2 [bigValuesMap] = .ok blocks ∧
      [] ∈ blocks ∧ byFieldX ≠ [] := by
  refine ⟨[[[[97], jsonArrayBytes [bigVal]]], []], ?_,
    List.mem_cons_of_mem _ (List.mem_singleton.mpr rfl), by decide⟩
  rw [pspFlush, if_neg (by norm_num)]
  have hm : mergeShardsParallel (fun _ => 0) (fun _ => 0) (fun _ => 0) [valuesFuncA] 2
      [bigValuesMap] = [bigValuesMap] := rfl
  simp only [hm]
  rw [if_neg (by simp [byFieldX])]
  simp [writerRun_bigValuesMap]

/-- Claim C7 (amended): during a flush, every block the stats writer passes
to the downstream writeBlock before its final trailing flush is non-empty;
only the writer's last block for a map can be a zero-row block (it is empty
exactly when the 64000-byte threshold flush fired at the last group), in
addition to the synthetic empty-match row case. -/
theorem writer_zero_row_blocks_amended_c7 {σ : Type} (bf : List ByStatsField)
    (funcs : List (StatsFuncM σ)) (m : GroupMapM σ) :
    ∀ b ∈ (writerRun bf funcs m).dropLast, b ≠ [] := by
  intro b hb
  simp only [writerRun, List.dropLast_concat] at hb
  exact writerFold_out_nonempty funcs (orderedEntries bf m) ⟨0, [], []⟩
    (by intro x hx; simp at hx) b hb

/-- Witness for the amended C7: the size-triggered block of the big-value
run is a non-final block and is non-empty. -/
theorem writer_zero_row_blocks_amended_c7_witness :
    ([[[97], jsonArrayBytes [bigVal]]] : OutBlock) ≠ [] := by
  apply writer_zero_row_blocks_amended_c7 byFieldX [valuesFuncA] bigValuesMap
  rw [writerRun_bigValuesMap]
  exact List.mem_singleton.mpr rfl

lemma count_filter_eq {α : Type} [DecidableEq α] (a : α) (p : α → Bool) (l : List α) :
    List.count a (l.filter p) = if p a = true then List.count a l else 0 := by
  by_cases h : p a = true
  · rw [if_pos h, List.count_filter h]
  · rw [if_neg h, List.count_eq_zero]
    intro hmem
    exact h (List.of_mem_filter hmem)

lemma sum_map_range_ite_zero (k c0 : Nat) :
    ∀ n : Nat, n ≤ c0 →
    ((List.range n).map (fun c => if c0 = c then k else 0)).sum = 0 := by
  intro n
  induction n with
  | zero => intro _; rfl
  | succ n ih =>
    intro h
    rw [List.range_succ, List.map_append, List.sum_append, ih (by omega)]
    have hne : c0 ≠ n := by omega
    simp [hne]

lemma sum_map_range_ite (k c0 n : Nat) (h : c0 < n) :
    ((List.range n).map (fun c => if c0 = c then k else 0)).sum = k := by
  induction n with
  | zero => omega
  | succ n ih =>
    rw [List.range_succ, List.map_append, List.sum_append]
    by_cases hc : c0 = n
    · subst hc
      rw [sum_map_range_ite_zero k c0 c0 le_rfl]
      simp
    · rw [ih (by omega)]
      simp [hc]

lemma partition_mod_perm {α : Type} [DecidableEq α] (f : α → Nat) (cpus : Nat)
    (hc : 0 < cpus) (l : List α) :
    ((List.range cpus).map (fun c => l.filter (fun a => f a % cpus = c))).flatten.Perm l := by
  rw [List.perm_iff_count]
  intro a
  rw [List.count_flatten, List.map_map]
  have hcong : (List.range cpus).map
        (List.count a ∘ fun c => l.filter (fun x => f x % cpus = c)) =
      (List.range cpus).map (fun c => if f a % cpus = c then List.count a l else 0) := by
    apply List.map_congr_left
    intro c _
    show List.count a (l.filter (fun x => f x % cpus = c)) = _
    rw [count_filter_eq]
    by_cases hfa : f a % cpus = c
    · rw [if_pos (by simpa using hfa), if_pos hfa]
    · rw [if_neg (by simpa using hfa), if_neg hfa]
  rw [hcong, sum_map_range_ite _ _ _ (Nat.mod_lt _ hc)]

lemma flatten_map_append_perm {γ α : Type} (F G : γ → List α) (l : List γ) :
    ((l.map (fun c => F c ++ G c)).flatten).Perm ((l.map F).flatten ++ (l.map G).flatten) := by
  induction l with
  | nil => simp
  | cons c l ih =>
    simp only [List.map_cons, List.flatten_cons]
    calc (F c ++ G c) ++ (l.map (fun c => F c ++ G c)).flatten
        |>.Perm ((F c ++ G c) ++ ((l.map F).flatten ++ (l.map G).flatten)) :=
          List.Perm.append_left _ ih
      _ = (F c ++ (G c ++ ((l.map F).flatten ++ (l.map G).flatten))) := by
          rw [List.append_assoc]
      _ |>.Perm (F c ++ ((l.map F).flatten ++ (G c ++ (l.map G).flatten))) := by
          apply List.Perm.append_left
          calc G c ++ ((l.map F).flatten ++ (l.map G).flatten)
              = (G c ++ (l.map F).flatten) ++ (l.map G).flatten := by rw [List.append_assoc]
            _ |>.Perm (((l.map F).flatten ++ G c) ++ (l.map G).flatten) :=
                List.Perm.append_right _ List.perm_append_comm
            _ = (l.map F).flatten ++ (G c ++ (l.map G).flatten) := by rw [List.append_assoc]
      _ = (F c ++ (l.map F).flatten) ++ (G c ++ (l.map G).flatten) := by
          rw [List.append_assoc]

lemma flatMap_flatten {α β : Type} (f : α → List (List β)) (l : List α) :
    (l.flatMap f).flatten = l.flatMap (fun x => (f x).flatten) := by
  induction l with
  | nil => rfl
  | cons x l ih => simp only [List.flatMap_cons, List.flatten_append, ih]

lemma flatMap_filter_of_nil {α β : Type} (p : α → Bool) (f : α → List β) (l : List α)
    (h : ∀ x ∈ l, p x = false → f x = []) :
    (l.filter p).flatMap f = l.flatMap f := by
  induction l with
  | nil => rfl
  | cons x l ih =>
    rw [List.filter_cons]
    have ih2 := ih (fun y hy hpy => h y (List.mem_cons_of_mem _ hy) hpy)
    cases hp : p x
    · rw [if_neg (by simp [hp]), List.flatMap_cons,
        h x (List.mem_cons_self _ _) hp, List.nil_append, ih2]
    · rw [if_pos (by simp [hp]), List.flatMap_cons, List.flatMap_cons, ih2]

lemma orderedEntries_scatterBucket_single {σ : Type} (bf : List ByStatsField)
    (hu : Nat → Nat) (hn : Int → Nat) (hs : Bytes → Nat) (cpus c : Nat) (m : GroupMapM σ)
    (h1 : bf.length = 1) :
    orderedEntries bf (scatterBucket hu hn hs cpus m c) =
      (m.u64.filter (fun e => hu e.1 % cpus = c)).map (fun e => ([natDecimalBytes e.1], e.2))
      ++ (m.neg.filter (fun e => hn e.1 % cpus = c)).map (fun e => ([intDecimalBytes e.1], e.2))
      ++ (m.strs.filter (fun e => hs e.1 % cpus = c)).map (fun e => ([e.1], e.2)) := by
  rw [orderedEntries, if_pos h1]
  rfl

lemma orderedEntries_scatterBucket_multi {σ : Type} (bf : List ByStatsField)
    (hu : Nat → Nat) (hn : Int → Nat) (hs : Bytes → Nat) (cpus c : Nat) (m : GroupMapM σ)
    (h1 : bf.length ≠ 1) :
    orderedEntries bf (scatterBucket hu hn hs cpus m c) =
      (m.strs.filter (fun e => hs e.1 % cpus = c)).map
        (fun e => (unmarshalBytesKey e.1, e.2)) := by
  rw [orderedEntries, if_neg h1]
  rfl

lemma flatten_map_filter_map_perm {σ κ : Type} [DecidableEq κ] [DecidableEq σ]
    (h : κ → Nat) (cpus : Nat) (hc : 0 < cpus) (l : List (κ × List σ))
    (g : κ × List σ → List Bytes) :
    (((List.range cpus).map
      (fun c => (l.filter (fun e => h e.1 % cpus = c)).map g)).flatten).Perm (l.map g) := by
  have heq : (List.range cpus).map (fun c => (l.filter (fun e => h e.1 % cpus = c)).map g) =
      ((List.range cpus).map (fun c => l.filter (fun e => h e.1 % cpus = c))).map
        (List.map g) := by
    rw [List.map_map]
    rfl
  rw [heq, ← List.map_flatten]
  exact List.Perm.map g (partition_mod_perm (fun e => h e.1) cpus hc l)

lemma scatter_rows_perm {σ : Type} [DecidableEq σ] (bf : List ByStatsField)
    (funcs : List (StatsFuncM σ)) (hu : Nat → Nat) (hn : Int → Nat) (hs : Bytes → Nat)
    (cpus : Nat) (hc : 0 < cpus) (m : GroupMapM σ) :
    (((List.range cpus).map (fun c =>
      (orderedEntries bf (scatterBucket hu hn hs cpus m c)).map
        (fun e => e.1 ++ finalizeGroup funcs e.2))).flatten).Perm
    ((orderedEntries bf m).map (fun e => e.1 ++ finalizeGroup funcs e.2)) := by
  by_cases h1 : bf.length = 1
  · have hmap : (List.range cpus).map (fun c =>
        (orderedEntries bf (scatterBucket hu hn hs cpus m c)).map
          (fun e => e.1 ++ finalizeGroup funcs e.2)) =
      (List.range cpus).map (fun c =>
        ((m.u64.filter (fun e => hu e.1 % cpus = c)).map
          (fun e => [natDecimalBytes e.1] ++ finalizeGroup funcs e.2)) ++
        (((m.neg.filter (fun e => hn e.1 % cpus = c)).map
          (fun e => [intDecimalBytes e.1] ++ finalizeGroup funcs e.2)) ++
         ((m.strs.filter (fun e => hs e.1 % cpus = c)).map
          (fun e => [e.1] ++ finalizeGroup funcs e.2)))) := by
      apply List.map_congr_left
      intro c _
      rw [orderedEntries_scatterBucket_single bf hu hn hs cpus c m h1,
        List.map_append, List.map_append, List.map_map, List.map_map, List.map_map,
        List.append_assoc]
      rfl
    rw [hmap]
    have hperm1 := flatten_map_append_perm
      (fun c => (m.u64.filter (fun e => hu e.1 % cpus = c)).map
        (fun e => [natDecimalBytes e.1] ++ finalizeGroup funcs e.2))
      (fun c =>
        ((m.neg.filter (fun e => hn e.1 % cpus = c)).map
          (fun e => [intDecimalBytes e.1] ++ finalizeGroup funcs e.2)) ++
        ((m.strs.filter (fun e => hs e.1 % cpus = c)).map
          (fun e => [e.1] ++ finalizeGroup funcs e.2)))
      (List.range cpus)
    refine hperm1.trans ?_
    have hperm2 := flatten_map_append_perm
      (fun c => (m.neg.filter (fun e => hn e.1 % cpus = c)).map
        (fun e => [intDecimalBytes e.1] ++ finalizeGroup funcs e.2))
      (fun c => (m.strs.filter (fun e => hs e.1 % cpus = c)).map
        (fun e => [e.1] ++ finalizeGroup funcs e.2))
      (List.range cpus)
    have hfinal : (orderedEntries bf m).map (fun e => e.1 ++ finalizeGroup funcs e.2) =
        m.u64.map (fun e => [natDecimalBytes e.1] ++ finalizeGroup funcs e.2) ++
        (m.neg.map (fun e => [intDecimalBytes e.1] ++ finalizeGroup funcs e.2) ++
         m.strs.map (fun e => [e.1] ++ finalizeGroup funcs e.2)) := by
      rw [orderedEntries, if_pos h1, List.map_append, List.map_append,
        List.map_map, List.map_map, List.map_map, List.append_assoc]
      rfl
    rw [hfinal]
    refine List.Perm.append ?_ ?_
    · exact flatten_map_filter_map_perm hu cpus hc m.u64 _
    · refine hperm2.trans ?_
      refine List.Perm.append ?_ ?_
      · exact flatten_map_filter_map_perm hn cpus hc m.neg _
      · exact flatten_map_filter_map_perm hs cpus hc m.strs _
  · have hmap : (List.range cpus).map (fun c =>
        (orderedEntries bf (scatterBucket hu hn hs cpus m c)).map
          (fun e => e.1 ++ finalizeGroup funcs e.2)) =
      (List.range cpus).map (fun c =>
        (m.strs.filter (fun e => hs e.1 % cpus = c)).map
          (fun e => unmarshalBytesKey e.1 ++ finalizeGroup funcs e.2)) := by
      apply List.map_congr_left
      intro c _
      rw [orderedEntries_scatterBucket_multi bf hu hn hs cpus c m h1, List.map_map]
      rfl
    rw [hmap]
    have hfinal : (orderedEntries bf m).map (fun e => e.1 ++ finalizeGroup funcs e.2) =
        m.strs.map (fun e => unmarshalBytesKey e.1 ++ finalizeGroup funcs e.2) := by
      rw [orderedEntries, if_neg h1, List.map_map]
      rfl
    rw [hfinal]
    exact flatten_map_filter_map_perm hs cpus hc m.strs _

lemma orderedEntries_of_entriesCount_zero {σ : Type} (bf : List ByStatsField)
    (mm : GroupMapM σ) (h0 : mm.entriesCount = 0) : orderedEntries bf mm = [] := by
  have hu0 : mm.u64 = [] := List.length_eq_zero.mp
    (by unfold GroupMapM.entriesCount at h0; omega)
  have hn0 : mm.neg = [] := List.length_eq_zero.mp
    (by unfold GroupMapM.entriesCount at h0; omega)
  have hs0 : mm.strs = [] := List.length_eq_zero.mp
    (by unfold GroupMapM.entriesCount at h0; omega)
  rw [orderedEntries]
  split <;> simp [hu0, hn0, hs0]

/-- Claim C10: with a single shard, mergeShardsParallel skips the hash
re-shard and fan-in merge and returns the shard map directly (or no maps at
all when it is empty), and the multiset of output rows emitted from this
fast path is a permutation of what the general re-shard-and-merge path would
produce from the same shard state. -/
theorem single_shard_merge_fastpath_c10 {σ : Type} [DecidableEq σ]
    (bf : List ByStatsField) (funcs : List (StatsFuncM σ)) (hu : Nat → Nat)
    (hn : Int → Nat) (hs : Bytes → Nat) (cpus : Nat) (hc : 0 < cpus) (m : GroupMapM σ) :
    (m.entriesCount ≠ 0 → mergeShardsParallel hu hn hs funcs cpus [m] = [m]) ∧
    (m.entriesCount = 0 → mergeShardsParallel hu hn hs funcs cpus [m] = []) ∧
    ((((mergeShardsParallel hu hn hs funcs cpus [m]).flatMap
        (writerRun bf funcs)).flatten).Perm
     (((mergeShardsGeneral hu hn hs funcs cpus [m]).flatMap
        (writerRun bf funcs)).flatten)) := by
  have hfastshape : mergeShardsParallel hu hn hs funcs cpus [m] =
      if m.entriesCount > 0 then [m] else [] := rfl
  have hgenshape : mergeShardsGeneral hu hn hs funcs cpus [m] =
      (scatterAll hu hn hs cpus m).filter (fun mm => mm.entriesCount ≠ 0) := rfl
  have hgrows : (((mergeShardsGeneral hu hn hs funcs cpus [m]).flatMap
      (writerRun bf funcs)).flatten).Perm
      ((orderedEntries bf m).map (fun e => e.1 ++ finalizeGroup funcs e.2)) := by
    rw [hgenshape, flatMap_flatten]
    rw [flatMap_filter_of_nil _ _ _ (by
      intro mm _ hp
      have h0 : mm.entriesCount = 0 := by simpa using hp
      rw [writerRun_flatten, orderedEntries_of_entriesCount_zero bf mm h0]
      rfl)]
    rw [List.flatMap_def, scatterAll, List.map_map]
    have hcong : (List.range cpus).map
        ((fun mm => (writerRun bf funcs mm).flatten) ∘ scatterBucket hu hn hs cpus m) =
        (List.range cpus).map (fun c =>
          (orderedEntries bf (scatterBucket hu hn hs cpus m c)).map
            (fun e => e.1 ++ finalizeGroup funcs e.2)) := by
      apply List.map_congr_left
      intro c _
      show (writerRun bf funcs (scatterBucket hu hn hs cpus m c)).flatten = _
      rw [writerRun_flatten]
    rw [hcong]
    exact scatter_rows_perm bf funcs hu hn hs cpus hc m
  refine ⟨?_, ?_, ?_⟩
  · intro h
    rw [hfastshape, if_pos (Nat.pos_of_ne_zero h)]
  · intro h
    rw [hfastshape, if_neg (by omega)]
  · by_cases h0 : m.entriesCount = 0
    · rw [hfastshape, if_neg (by omega)]
      have : (orderedEntries bf m).map (fun e => e.1 ++ finalizeGroup funcs e.2) = [] := by
        rw [orderedEntries_of_entriesCount_zero bf m h0]
        rfl
      rw [this] at hgrows
      simpa using hgrows.symm
    · rw [hfastshape, if_pos (Nat.pos_of_ne_zero h0)]
      have hl : (([m].flatMap (writerRun bf funcs)).flatten) =
          (orderedEntries bf m).map (fun e => e.1 ++ finalizeGroup funcs e.2) := by
        rw [List.flatMap_def, List.map_cons, List.map_nil]
        rw [show ([writerRun bf funcs m] : List (List OutBlock)).flatten =
          writerRun bf funcs m from by simp]
        rw [writerRun_flatten]
      rw [hl]
      exact hgrows.symm

/-- Witness for C10 on a concrete mixed map with two cpu buckets. -/
theorem single_shard_merge_fastpath_c10_witness :
    mergeShardsParallel (fun n => n) (fun _ => 1) (fun k => k.length) [statsCountFunc "n" none]
      2 [smallMixedMap] = [smallMixedMap] :=
  (single_shard_merge_fastpath_c10 byFieldX [statsCountFunc "n" none] (fun n => n)
    (fun _ => 1) (fun k => k.length) 2 (by decide) smallMixedMap).1 (by decide)

end PipeStatsModel
